import Mathlib

/-!
Shallow embedding of `src/schoolshits_etl/main.py`: a spreadsheet ETL that
detects one of four vendor layouts, reshapes it into a canonical row schema,
enriches rows with grade/term/subject/category/publisher-version parsed from
Chinese book titles, and fills an Excel template.

Text is modelled as `List Char`.  A Python value that may fail the
`isinstance(x, str)` guard is modelled as `Option (List Char)` with `none`
for the non-string case.  Spreadsheet cell contents are modelled by the
inductive `CellVal` (number / string / blank-or-NaN).
-/

/-- Titles and other Python strings, as lists of characters. -/
abbrev Str := List Char

/-- Turn a Lean string literal into the `List Char` representation. -/
def lit (s : String) : Str := s.data

/-- Test `startsW p s` : `p` is a prefix of `s` (character-wise). -/
def startsW : Str → Str → Bool
  | [], _ => true
  | _ :: _, [] => false
  | a :: as, b :: bs => a == b && startsW as bs

/-- Test `hasSub p s` : `p` occurs as a contiguous substring of `s`
(Python's `p in s`; `re.search` of the literal pattern `p`). -/
def hasSub (p : Str) : Str → Bool
  | [] => startsW p []
  | c :: rest => startsW p (c :: rest) || hasSub p rest

/-- Whitespace characters stripped by Python's `str.strip()` / matched by
`\s`, restricted to the whitespace forms occurring in this domain
(ASCII whitespace plus the full-width ideographic space U+3000). -/
def isPyWs (c : Char) : Bool :=
  c == ' ' || c == '\t' || c == '\n' || c == '\r' ||
  c == '\x0b' || c == '\x0c' || c == '　'

/-- Python `str.strip()`: drop leading and trailing whitespace. -/
def stripWs (t : Str) : Str :=
  ((t.dropWhile isPyWs).reverse.dropWhile isPyWs).reverse

/-- Model of `.replace("（", "(").replace("）", ")")` — full-width bracket
substitution (single-character replacements, hence a `map`). -/
def substBrackets (t : Str) : Str :=
  t.map fun c => if c == '（' then '(' else if c == '）' then ')' else c

/-- Model of `normalize_text` (main.py:29): non-strings become `""`; strings get
bracket substitution and are stripped. -/
def normalize_text : Option Str → Str
  | none => []
  | some t => stripWs (substBrackets t)

/-! ## Grade and term extraction (`parse_grade_and_term`, main.py:143) -/

/-- Key characters of the `grade_map` dict: Chinese numerals 一–六 and
ASCII digits 1–6. -/
def gradeKey (c : Char) : Bool :=
  c == '一' || c == '二' || c == '三' || c == '四' || c == '五' || c == '六' ||
  c == '1' || c == '2' || c == '3' || c == '4' || c == '5' || c == '6'

/-- The Chinese numerals 一–六 (character class of the fallback pattern). -/
def cnNum (c : Char) : Bool :=
  c == '一' || c == '二' || c == '三' || c == '四' || c == '五' || c == '六'

/-- The `grade_map` dict of main.py:150, as a function on its key
characters (`[]` is never reached: the map is only applied to characters
produced by the two searches below, all of which are keys). -/
def gradeLabel (c : Char) : Str :=
  if c == '一' || c == '1' then lit "一年级"
  else if c == '二' || c == '2' then lit "二年级"
  else if c == '三' || c == '3' then lit "三年级"
  else if c == '四' || c == '4' then lit "四年级"
  else if c == '五' || c == '5' then lit "五年级"
  else if c == '六' || c == '6' then lit "六年级"
  else []

/-- Model of `re.search(r"((一|二|三|四|五|六)|([1-6]))年级", text)`: leftmost
position where a grade key character is immediately followed by the
literal `年级`; returns the captured group-1 character. -/
def findGradeNianji : Str → Option Char
  | [] => none
  | c :: rest =>
    if gradeKey c && startsW (lit "年级") rest then some c
    else findGradeNianji rest

/-- Model of `re.search(r"([一二三四五六])(?=[上下])", text)`: leftmost Chinese
numeral whose immediately following character is 上 or 下 (lookahead:
the 上/下 is not consumed). -/
def findGradeBeforeUD : Str → Option Char
  | [] => none
  | c :: rest =>
    if cnNum c && (match rest with
                   | d :: _ => d == '上' || d == '下'
                   | [] => false) then some c
    else findGradeBeforeUD rest

/-- Model of `re.search(r"上册?|\(上\)", text)`, which succeeds iff the text contains 上
(the 册 is optional, so any 上 matches the first branch) or the literal
`(上)`. -/
def termUp (t : Str) : Bool :=
  hasSub (lit "上") t || hasSub (lit "(上)") t

/-- Model of `re.search(r"下册?|\(下\)", text)`, symmetric to `termUp`. -/
def termDown (t : Str) : Bool :=
  hasSub (lit "下") t || hasSub (lit "(下)") t

/-- Model of `parse_grade_and_term` (main.py:143): grade from the `X年级` pattern,
else from the bare-numeral-before-上/下 fallback; term from the
independent 上/下 searches, 上 checked first. -/
def parse_grade_and_term : Option Str → Option Str × Option Str
  | none => (none, none)
  | some bn =>
    let text := normalize_text (some bn)
    let grade : Option Str :=
      match findGradeNianji text with
      | some c => some (gradeLabel c)
      | none =>
        match findGradeBeforeUD text with
        | some c => some (gradeLabel c)
        | none => none
    let term : Option Str :=
      if termUp text then some (lit "上学期")
      else if termDown text then some (lit "下学期")
      else none
    (grade, term)

/-! ## Subject extraction (`parse_subject`, main.py:186) -/

/-- The fixed subject vocabulary, in list order (main.py:191). -/
def subjects : List Str :=
  [lit "道德与法治", lit "语文", lit "数学", lit "英语", lit "科学",
   lit "书法", lit "品德与社会", lit "音乐", lit "美术", lit "信息技术",
   lit "综合实践", lit "体育与健康", lit "体育"]

/-- Model of `parse_subject` (main.py:186): first subject keyword contained in the
raw (non-normalized) title wins; 体育 and 体育与健康 normalize to 体育;
non-strings yield `none`. -/
def parse_subject : Option Str → Option Str
  | none => none
  | some t =>
    match subjects.find? (fun s => hasSub s t) with
    | some s =>
      some (if s == lit "体育" || s == lit "体育与健康" then lit "体育" else s)
    | none => none

/-! ## Category extraction (`parse_category`, main.py:215) -/

/-- The supplementary-material keyword list (main.py:220). -/
def categoryKeywords : List Str :=
  [lit "教参", lit "教师用书", lit "学生活动手册", lit "练习", lit "光盘",
   lit "学具", lit "字典", lit "教案", lit "辅导", lit "同步",
   lit "导学", lit "训练"]

/-- Model of `parse_category` (main.py:215): any keyword contained in the raw title
yields 教辅 (the Python loop returns the constant 教辅 on the first hit),
otherwise the default 教材; non-strings yield `none`. -/
def parse_category : Option Str → Option Str
  | none => none
  | some t =>
    if categoryKeywords.any (fun k => hasSub k t) then some (lit "教辅")
    else some (lit "教材")

/-! ## Publisher version extraction (`parse_version`, main.py:240) -/

/-- The explicit publisher/edition patterns, in list order (main.py:247).
Each is a literal, so `re.search` is substring containment and
`m.group(0)` is the pattern itself. -/
def explicitPatterns : List Str :=
  [lit "北师大版", lit "北师大", lit "人教版", lit "粤教版",
   lit "人音版", lit "人美版", lit "语文S版", lit "语文社S版"]

/-- The containment-checked publisher names (main.py:269). -/
def pubList : List Str :=
  [lit "湖南美术", lit "江苏教育", lit "粤教科技", lit "粤教育", lit "粤高教"]

/-- The character class `[^\)（）]` of the 配 pattern (main.py:264)
excludes the ASCII closing parenthesis and both full-width parentheses —
but not the ASCII opening parenthesis. -/
def peiExcl (c : Char) : Bool := c == ')' || c == '（' || c == '）'

/-- Greedy `[^\)（）]+` run: maximal prefix of non-excluded characters. -/
def peiRun : Str → Str
  | [] => []
  | c :: rest => if peiExcl c then [] else c :: peiRun rest

/-- Length of the maximal `\s*` prefix. -/
def wsLen : Str → Nat
  | [] => 0
  | c :: rest => if isPyWs c then wsLen rest + 1 else 0

/-- Backtracking of `\s*([^\)（）]+)` after a 配, tried greediest first:
`peiTryFrom k l` attempts the capture at offset `k` of `l` and on failure
retries at `k-1`, …, `0` (whitespace is itself inside the capture class,
which is what makes the backtracked captures succeed). -/
def peiTryFrom : Nat → Str → Option Str
  | 0, l =>
    match l with
    | [] => none
    | c :: _ => if peiExcl c then none else some (peiRun l)
  | k + 1, l =>
    match l.drop (k + 1) with
    | [] => peiTryFrom k l
    | c :: _ =>
      if peiExcl c then peiTryFrom k l else some (peiRun (l.drop (k + 1)))

/-- Match of `\s*([^\)（）]+)` against the text following a 配. -/
def peiMatch (l : Str) : Option Str := peiTryFrom (wsLen l) l

/-- Model of `re.search(r"配\s*([^\)（）]+)", text)`: leftmost 配 at which the
tail admits a match; returns the captured group. -/
def findPei : Str → Option Str
  | [] => none
  | c :: rest =>
    if c == '配' then
      match peiMatch rest with
      | some cap => some cap
      | none => findPei rest
    else findPei rest

/-- Model of `parse_version` (main.py:240): explicit patterns in list order (a bare
北师大 is normalized to 北师大版), else the 配 capture (trimmed,
normalized to 北师大版 when it contains 北师大), else the publisher
containment list, else the fallback label unchanged.  Non-string titles
return the fallback unchanged.  The title undergoes only bracket
substitution, no trim. -/
def parse_version (book : Option Str) (fallback : Option Str) : Option Str :=
  match book with
  | none => fallback
  | some bn =>
    let text := substBrackets bn
    match explicitPatterns.find? (fun p => hasSub p text) with
    | some p => some (if p == lit "北师大" then lit "北师大版" else p)
    | none =>
      match findPei text with
      | some cap =>
        let v := stripWs cap
        some (if hasSub (lit "北师大") v then lit "北师大版" else v)
      | none =>
        match pubList.find? (fun p => hasSub p text) with
        | some p => some p
        | none => fallback

/-! ## Source format detection and canonical rows
(`load_and_normalize_source`, main.py:51) -/

/-- The four detected source layouts. -/
inductive FormatTag
  | shipment    -- 发货单明细
  | supplement  -- 教辅目录
  | freebook    -- 免费教材
  | standard    -- default
deriving DecidableEq

/-- The if/elif chain of main.py:70-131 on the stringified top-left cell. -/
def detect_format (firstCell : Str) : FormatTag :=
  if hasSub (lit "发货单明细") firstCell then .shipment
  else if hasSub (lit "教辅目录") firstCell then .supplement
  else if hasSub (lit "免费教材") firstCell then .freebook
  else .standard

/-- A spreadsheet/dataframe cell: a number, a string, or blank/NaN. -/
inductive CellVal
  | num (q : ℚ)
  | str (s : Str)
  | blank
deriving DecidableEq

/-- Digit value of an ASCII digit. -/
def digitVal (c : Char) : Option Nat :=
  if '0' ≤ c && c ≤ '9' then some (c.toNat - '0'.toNat) else none

/-- All characters are ASCII digits. -/
def allDigits (t : Str) : Bool := t.all fun c => (digitVal c).isSome

/-- Decimal value of a digit string. -/
def digitsToNat (t : Str) : Nat :=
  t.foldl (fun n c => n * 10 + ((digitVal c).getD 0)) 0

/-- Split at the first `.`: integer part, and fractional part when a dot
is present. -/
def breakDot : Str → Str × Option Str
  | [] => ([], none)
  | c :: rest =>
    if c == '.' then ([], some rest)
    else
      let (a, b) := breakDot rest
      (c :: a, b)

/-- Unsigned decimal literal: digits, optionally with a dot and fractional
digits; at least one digit overall.  The value `ip.fp` is the exact
rational `(ip·10^|fp| + fp) / 10^|fp|`. -/
def parseUnsigned (t : Str) : Option ℚ :=
  match breakDot t with
  | (ip, none) =>
    if !ip.isEmpty && allDigits ip then some (mkRat (digitsToNat ip) 1) else none
  | (ip, some fp) =>
    if (!ip.isEmpty || !fp.isEmpty) && allDigits ip && allDigits fp then
      some (mkRat (digitsToNat ip * 10 ^ fp.length + digitsToNat fp) (10 ^ fp.length))
    else none

/-- Numeric parsing of a string cell, as performed by
`pd.to_numeric(errors="coerce")` on the decimal forms occurring in this
domain: surrounding whitespace, optional sign, digits with an optional
fractional part.  `none` is the NaN outcome. -/
def parseNum (s : Str) : Option ℚ :=
  match stripWs s with
  | '-' :: rest => (parseUnsigned rest).map fun q => -q
  | '+' :: rest => parseUnsigned rest
  | t => parseUnsigned t

/-- Model of `pd.to_numeric(col, errors="coerce")` per cell: numbers pass through,
blanks/NaN stay NaN (`none`), strings are parsed or become NaN. -/
def to_numeric_coerce : CellVal → Option ℚ
  | .num q => some q
  | .blank => none
  | .str s => parseNum s

/-- Truncation toward zero, as in `.astype(int)` on a float column. -/
def ratTruncToInt (q : ℚ) : ℤ := q.num.tdiv (q.den : ℤ)

/-- Model of `pd.to_numeric(col, errors="coerce").fillna(0).astype(int)`
(main.py:135) per cell. -/
def coerceQty (v : CellVal) : ℤ :=
  match to_numeric_coerce v with
  | some q => ratTruncToInt q
  | none => 0

/-- Model of `pd.to_numeric(col, errors="coerce").fillna(0)` (main.py:137) per cell. -/
def coercePrice (v : CellVal) : ℚ :=
  match to_numeric_coerce v with
  | some q => q
  | none => 0

/-- A reshaped row before the uniform numeric coercion: the five columns
书名 / 版别 / 单价 / 非免费订数 / 免费订数 as raw cells. -/
structure RawRow where
  title : CellVal
  ver : CellVal
  price : CellVal
  paid : CellVal
  free : CellVal
deriving DecidableEq

/-- A canonical row after coercion: quantities are integers, the unit
price is a rational — never NaN/null. -/
structure CanonicalRow where
  title : CellVal
  ver : CellVal
  price : ℚ
  paid : ℤ
  free : ℤ
deriving DecidableEq

/-- One record of a 发货单明细 sheet (columns used by `split_row`,
main.py:74). -/
structure ShipmentRec where
  productName : CellVal  -- 产品名称
  isFree : CellVal       -- 是否免费
  listPrice : CellVal    -- 定价
  shipQty : CellVal      -- 发货数
deriving DecidableEq

/-- Model of `str(r.get("是否免费")).strip() == "是"`: only a string cell whose
stripped text is 是 qualifies (`str()` of a number or of NaN can never
equal the single character 是). -/
def cellIsYes : CellVal → Bool
  | .str s => stripWs s == lit "是"
  | _ => false

/-- Model of `split_row` (main.py:74): route 发货数 to the free or paid quantity
according to 是否免费; 版别 is absent; 单价 ← 定价. -/
def reshapeShipment (r : ShipmentRec) : RawRow :=
  let isF := cellIsYes r.isFree
  { title := r.productName
    ver := .blank
    price := r.listPrice
    paid := if isF then .num 0 else r.shipQty
    free := if isF then r.shipQty else .num 0 }

/-- One record of a 教辅目录 sheet: named columns 名称/版本/单价 plus the
two positional trailing columns (main.py:91-101). -/
structure SupplementRec where
  name : CellVal       -- 名称
  version : CellVal    -- 版本
  price : CellVal      -- 单价
  studentQty : CellVal -- second-to-last column
  teacherQty : CellVal -- last column
deriving DecidableEq

/-- Reshape of a 教辅目录 record (main.py:94). -/
def reshapeSupplement (r : SupplementRec) : RawRow :=
  { title := r.name, ver := r.version, price := r.price,
    paid := r.studentQty, free := r.teacherQty }

/-- One record of a 免费教材 sheet: fuzzily-located name column, an
optional version column (`none` when no column name contains 版), and the
last column (main.py:108-125). -/
structure FreebookRec where
  name : CellVal
  version : Option CellVal
  lastCol : CellVal
deriving DecidableEq

/-- Reshape of a 免费教材 record (main.py:118): fixed 0 price and paid
quantity; 版别 is None when the version column is missing. -/
def reshapeFreebook (r : FreebookRec) : RawRow :=
  { title := r.name
    ver := match r.version with
           | some v => v
           | none => .blank
    price := .num 0
    paid := .num 0
    free := r.lastCol }

/-- A source record of whichever detected format. -/
inductive SourceRec
  | shipment (r : ShipmentRec)
  | supplement (r : SupplementRec)
  | freebook (r : FreebookRec)
  | standard (r : RawRow)  -- the five named columns taken directly
deriving DecidableEq

/-- Per-format reshape to the five raw columns (the format branches of
main.py:70-131). -/
def reshape : SourceRec → RawRow
  | .shipment r => reshapeShipment r
  | .supplement r => reshapeSupplement r
  | .freebook r => reshapeFreebook r
  | .standard r => r

/-- The uniform numeric coercion applied after every branch
(main.py:133-137). -/
def normalizeRow (r : RawRow) : CanonicalRow :=
  { title := r.title, ver := r.ver,
    price := coercePrice r.price,
    paid := coerceQty r.paid,
    free := coerceQty r.free }

/-- Full per-record adaptation: reshape by format, then coerce. -/
def adaptRow (r : SourceRec) : CanonicalRow := normalizeRow (reshape r)

/-! ## Template writer (`main`, main.py:276-356, and `copy_row_style`,
main.py:36) -/

/-- A value held by a worksheet cell in the output: string, integer,
rational, or the empty/None value. -/
inductive XVal
  | s (t : Str)
  | i (n : ℤ)
  | q (r : ℚ)
  | blank
deriving DecidableEq

/-- An openpyxl worksheet, reduced to what the writer observes: current
dimensions and the value of every (row, column) cell (1-based; absent
cells hold `.blank`). -/
structure Sheet where
  maxRow : Nat
  maxCol : Nat
  val : Nat → Nat → XVal

/-- Direct attribute assignment `cell.value = v` on an already-created
cell: unconditional, it overwrites the stored value even when `v` is the
None value. -/
def assignCell (ws : Sheet) (r c : Nat) (v : XVal) : Sheet :=
  { maxRow := max ws.maxRow r
    maxCol := max ws.maxCol c
    val := fun r2 c2 => if r2 = r ∧ c2 = c then v else ws.val r2 c2 }

/-- C1 (counterexample): the spec's third test vector fails on the code —
`parse_grade_and_term "五(上)数学"` is not `(五年级, 上学期)`, because the
fallback lookahead needs the numeral immediately followed by 上/下 and the
`(` intervenes. -/
theorem c1_counterexample :
    parse_grade_and_term (some (lit "五(上)数学")) ≠
      (some (lit "五年级"), some (lit "上学期")) := by decide

/-- C1 (amended): `parse_grade_and_term "三年级语文上册" = (三年级, 上学期)`
and `parse_grade_and_term "英语练习" = (None, None)` as the spec states;
`parse_grade_and_term "五(上)数学" = (None, 上学期)` — the bare-numeral
fallback requires the 上/下 to immediately follow the numeral (lookahead),
so the intervening `(` blocks the grade while 上 still yields the term;
on `"五上数学"` the fallback does fire and the unconsumed 上 is reused for
the term: `(五年级, 上学期)`. -/
theorem c1_test_vectors :
    parse_grade_and_term (some (lit "三年级语文上册")) =
      (some (lit "三年级"), some (lit "上学期")) ∧
    parse_grade_and_term (some (lit "英语练习")) = (none, none) ∧
    parse_grade_and_term (some (lit "五(上)数学")) =
      (none, some (lit "上学期")) ∧
    parse_grade_and_term (some (lit "五上数学")) =
      (some (lit "五年级"), some (lit "上学期")) := by decide

/-- C10: when the normalized title matches both the 上-term pattern and
the 下-term pattern, the term is 上学期 — the 上 branch is checked first
and takes precedence. -/
theorem c10_term_up_precedence (t : Str)
    (hup : termUp (normalize_text (some t)) = true)
    (hdown : termDown (normalize_text (some t)) = true) :
    (parse_grade_and_term (some t)).2 = some (lit "上学期") := by
  simp [parse_grade_and_term, hup]

/-- C10 witness: `"三年级上下册"` matches both term patterns and yields
上学期. -/
theorem c10_witness :
    (parse_grade_and_term (some (lit "三年级上下册"))).2 = some (lit "上学期") :=
  c10_term_up_precedence (lit "三年级上下册") (by decide) (by decide)

/-- C5: format detection over the stringified top-left cell is total and
mutually exclusive, in fixed priority order 发货单明细, 教辅目录,
免费教材, with everything else classified Standard-Statistics. -/
theorem c5_detect_format (cell : Str) :
    (hasSub (lit "发货单明细") cell = true → detect_format cell = .shipment) ∧
    (hasSub (lit "发货单明细") cell = false →
      hasSub (lit "教辅目录") cell = true → detect_format cell = .supplement) ∧
    (hasSub (lit "发货单明细") cell = false →
      hasSub (lit "教辅目录") cell = false →
      hasSub (lit "免费教材") cell = true → detect_format cell = .freebook) ∧
    (hasSub (lit "发货单明细") cell = false →
      hasSub (lit "教辅目录") cell = false →
      hasSub (lit "免费教材") cell = false → detect_format cell = .standard) := by
  refine ⟨?_, ?_, ?_, ?_⟩ <;> intros <;> simp [detect_format, *]

/-- C5 witness: a cell containing only the 免费教材 marker is classified
as the Free-Textbook-Catalog format. -/
theorem c5_witness : detect_format (lit "2024年免费教材征订表") = .freebook :=
  (c5_detect_format _).2.2.1 (by decide) (by decide) (by decide)

/-- C9: 教辅 exactly when some keyword occurs in a string title, the
default 教材 when none does, and `none` (distinguishable from the
default) for non-string titles. -/
theorem c9_parse_category :
    parse_category none = none ∧
    (∀ t : Str, (∃ k ∈ categoryKeywords, hasSub k t = true) →
      parse_category (some t) = some (lit "教辅")) ∧
    (∀ t : Str, (∀ k ∈ categoryKeywords, hasSub k t = false) →
      parse_category (some t) = some (lit "教材")) ∧
    (∀ t : Str, parse_category (some t) ≠ none) := by
  refine ⟨rfl, ?_, ?_, ?_⟩
  · intro t h
    have : categoryKeywords.any (fun k => hasSub k t) = true := by
      rw [List.any_eq_true]; obtain ⟨k, hk, hkt⟩ := h; exact ⟨k, hk, hkt⟩
    simp [parse_category, this]
  · intro t h
    have : categoryKeywords.any (fun k => hasSub k t) = false := by
      rw [List.any_eq_false]; intro k hk; simp [h k hk]
    simp [parse_category, this]
  · intro t
    simp only [parse_category]
    split <;> simp

/-- C9 witness: a keyword title maps to 教辅, a keyword-free title to
教材. -/
theorem c9_witness :
    parse_category (some (lit "同步练习册")) = some (lit "教辅") ∧
    parse_category (some (lit "语文")) = some (lit "教材") :=
  ⟨c9_parse_category.2.1 _ ⟨lit "练习", by decide, by decide⟩,
   c9_parse_category.2.2.1 _ (by decide)⟩

/-- C4: after adaptation (any source format), the paid/free quantities
are integers and the unit price a rational — `none` (NaN) is impossible
by type — with blank or unparsable cells coerced to 0, and parsable cells
to their numeric value (quantities truncated toward zero). -/
theorem c4_numeric_coercion (rec : SourceRec) :
    (to_numeric_coerce (reshape rec).paid = none → (adaptRow rec).paid = 0) ∧
    (∀ q : ℚ, to_numeric_coerce (reshape rec).paid = some q →
      (adaptRow rec).paid = ratTruncToInt q) ∧
    (to_numeric_coerce (reshape rec).free = none → (adaptRow rec).free = 0) ∧
    (∀ q : ℚ, to_numeric_coerce (reshape rec).free = some q →
      (adaptRow rec).free = ratTruncToInt q) ∧
    (to_numeric_coerce (reshape rec).price = none → (adaptRow rec).price = 0) ∧
    (∀ q : ℚ, to_numeric_coerce (reshape rec).price = some q →
      (adaptRow rec).price = q) := by
  refine ⟨?_, ?_, ?_, ?_, ?_, ?_⟩
  · intro h; simp [adaptRow, normalizeRow, coerceQty, coercePrice, h]
  · intro q h; simp [adaptRow, normalizeRow, coerceQty, coercePrice, h]
  · intro h; simp [adaptRow, normalizeRow, coerceQty, coercePrice, h]
  · intro q h; simp [adaptRow, normalizeRow, coerceQty, coercePrice, h]
  · intro h; simp [adaptRow, normalizeRow, coerceQty, coercePrice, h]
  · intro q h; simp [adaptRow, normalizeRow, coerceQty, coercePrice, h]

/-- C4 witness: a Standard-Statistics record whose 非免费订数 cell is the
unparsable text `x` adapts with paid quantity 0. -/
theorem c4_witness :
    (adaptRow (.standard ⟨.str (lit "书"), .blank, .blank,
      .str (lit "x"), .str (lit "3")⟩)).paid = 0 :=
  (c4_numeric_coercion _).1 (by decide)

/-- C8: subject extraction scans the vocabulary in list order and the
first substring match wins — if none of the eleven subjects listed before
体育与健康 occurs, a title containing 体育与健康 (which always also
contains 体育) resolves through the earlier-listed 体育与健康 and is
returned as 体育; `parse_subject "体育与健康" = 体育` and
`parse_subject "综合实践活动手册" = 综合实践`; titles containing no
keyword, and non-string titles, yield `none`. -/
theorem c8_parse_subject :
    parse_subject (some (lit "体育与健康")) = some (lit "体育") ∧
    parse_subject (some (lit "综合实践活动手册")) = some (lit "综合实践") ∧
    parse_subject none = none ∧
    (∀ t : Str, (∀ s ∈ subjects, hasSub s t = false) →
      parse_subject (some t) = none) ∧
    (∀ t : Str, (∀ s ∈ subjects.take 11, hasSub s t = false) →
      hasSub (lit "体育与健康") t = true →
      parse_subject (some t) = some (lit "体育")) := by
  refine ⟨by decide, by decide, rfl, ?_, ?_⟩
  · intro t h
    have hf : subjects.find? (fun s => hasSub s t) = none := by
      rw [List.find?_eq_none]
      intro s hs
      simp [h s hs]
    simp [parse_subject, hf]
  · intro t h hty
    have h1 := h (lit "道德与法治") (by simp [subjects])
    have h2 := h (lit "语文") (by simp [subjects])
    have h3 := h (lit "数学") (by simp [subjects])
    have h4 := h (lit "英语") (by simp [subjects])
    have h5 := h (lit "科学") (by simp [subjects])
    have h6 := h (lit "书法") (by simp [subjects])
    have h7 := h (lit "品德与社会") (by simp [subjects])
    have h8 := h (lit "音乐") (by simp [subjects])
    have h9 := h (lit "美术") (by simp [subjects])
    have h10 := h (lit "信息技术") (by simp [subjects])
    have h11 := h (lit "综合实践") (by simp [subjects])
    simp [parse_subject, subjects, List.find?, h1, h2, h3, h4, h5, h6, h7,
      h8, h9, h10, h11, hty]

/-- C8 witness: `"新体育与健康读本"` contains none of the first eleven
subjects, contains 体育与健康, and resolves to 体育. -/
theorem c8_witness :
    parse_subject (some (lit "新体育与健康读本")) = some (lit "体育") :=
  c8_parse_subject.2.2.2.2 _ (by decide) (by decide)

/-- Helper: a `find?` over a keyword list is `none` when every keyword
fails the containment test. -/
theorem find_hasSub_eq_none (ks : List Str) (t : Str)
    (h : ∀ p ∈ ks, hasSub p t = false) :
    ks.find? (fun p => hasSub p t) = none := by
  rw [List.find?_eq_none]
  intro p hp
  simp [h p hp]

/-- C6: `parse_version` precedence — non-strings return the fallback;
the explicit tokens are tried in list order (with a bare
北师大 normalized to 北师大版 and the rest verbatim); only when none
matches is the 配 capture used; then the containment list in order; and
when nothing matches the fallback is returned unchanged. -/
theorem c6_parse_version_precedence (fb : Option Str) :
    parse_version none fb = fb ∧
    ∀ t : Str,
      (hasSub (lit "北师大版") (substBrackets t) = true →
        parse_version (some t) fb = some (lit "北师大版")) ∧
      ((∀ p ∈ explicitPatterns.take 1, hasSub p (substBrackets t) = false) →
        hasSub (lit "北师大") (substBrackets t) = true →
        parse_version (some t) fb = some (lit "北师大版")) ∧
      ((∀ p ∈ explicitPatterns.take 2, hasSub p (substBrackets t) = false) →
        hasSub (lit "人教版") (substBrackets t) = true →
        parse_version (some t) fb = some (lit "人教版")) ∧
      ((∀ p ∈ explicitPatterns.take 3, hasSub p (substBrackets t) = false) →
        hasSub (lit "粤教版") (substBrackets t) = true →
        parse_version (some t) fb = some (lit "粤教版")) ∧
      ((∀ p ∈ explicitPatterns.take 4, hasSub p (substBrackets t) = false) →
        hasSub (lit "人音版") (substBrackets t) = true →
        parse_version (some t) fb = some (lit "人音版")) ∧
      ((∀ p ∈ explicitPatterns.take 5, hasSub p (substBrackets t) = false) →
        hasSub (lit "人美版") (substBrackets t) = true →
        parse_version (some t) fb = some (lit "人美版")) ∧
      ((∀ p ∈ explicitPatterns.take 6, hasSub p (substBrackets t) = false) →
        hasSub (lit "语文S版") (substBrackets t) = true →
        parse_version (some t) fb = some (lit "语文S版")) ∧
      ((∀ p ∈ explicitPatterns.take 7, hasSub p (substBrackets t) = false) →
        hasSub (lit "语文社S版") (substBrackets t) = true →
        parse_version (some t) fb = some (lit "语文社S版")) ∧
      ((∀ p ∈ explicitPatterns, hasSub p (substBrackets t) = false) →
        ∀ cap : Str, findPei (substBrackets t) = some cap →
        parse_version (some t) fb =
          some (if hasSub (lit "北师大") (stripWs cap) then lit "北师大版"
                else stripWs cap)) ∧
      ((∀ p ∈ explicitPatterns, hasSub p (substBrackets t) = false) →
        findPei (substBrackets t) = none →
        hasSub (lit "湖南美术") (substBrackets t) = true →
        parse_version (some t) fb = some (lit "湖南美术")) ∧
      ((∀ p ∈ explicitPatterns, hasSub p (substBrackets t) = false) →
        findPei (substBrackets t) = none →
        (∀ p ∈ pubList.take 1, hasSub p (substBrackets t) = false) →
        hasSub (lit "江苏教育") (substBrackets t) = true →
        parse_version (some t) fb = some (lit "江苏教育")) ∧
      ((∀ p ∈ explicitPatterns, hasSub p (substBrackets t) = false) →
        findPei (substBrackets t) = none →
        (∀ p ∈ pubList.take 2, hasSub p (substBrackets t) = false) →
        hasSub (lit "粤教科技") (substBrackets t) = true →
        parse_version (some t) fb = some (lit "粤教科技")) ∧
      ((∀ p ∈ explicitPatterns, hasSub p (substBrackets t) = false) →
        findPei (substBrackets t) = none →
        (∀ p ∈ pubList.take 3, hasSub p (substBrackets t) = false) →
        hasSub (lit "粤教育") (substBrackets t) = true →
        parse_version (some t) fb = some (lit "粤教育")) ∧
      ((∀ p ∈ explicitPatterns, hasSub p (substBrackets t) = false) →
        findPei (substBrackets t) = none →
        (∀ p ∈ pubList.take 4, hasSub p (substBrackets t) = false) →
        hasSub (lit "粤高教") (substBrackets t) = true →
        parse_version (some t) fb = some (lit "粤高教")) ∧
      ((∀ p ∈ explicitPatterns, hasSub p (substBrackets t) = false) →
        findPei (substBrackets t) = none →
        (∀ p ∈ pubList, hasSub p (substBrackets t) = false) →
        parse_version (some t) fb = fb) := by
  refine ⟨rfl, ?_⟩
  intro t
  refine ⟨?_, ?_, ?_, ?_, ?_, ?_, ?_, ?_, ?_, ?_, ?_, ?_, ?_, ?_, ?_⟩
  · intro h1
    simp [parse_version, explicitPatterns, List.find?, h1]
  · intro h h2
    have h1 := h (lit "北师大版") (by simp [explicitPatterns])
    simp [parse_version, explicitPatterns, List.find?, h1, h2]
  · intro h h3
    have h1 := h (lit "北师大版") (by simp [explicitPatterns])
    have h2 := h (lit "北师大") (by simp [explicitPatterns])
    simp [parse_version, explicitPatterns, List.find?, h1, h2, h3] <;> decide
  · intro h h4
    have h1 := h (lit "北师大版") (by simp [explicitPatterns])
    have h2 := h (lit "北师大") (by simp [explicitPatterns])
    have h3 := h (lit "人教版") (by simp [explicitPatterns])
    simp [parse_version, explicitPatterns, List.find?, h1, h2, h3, h4] <;> decide
  · intro h h5
    have h1 := h (lit "北师大版") (by simp [explicitPatterns])
    have h2 := h (lit "北师大") (by simp [explicitPatterns])
    have h3 := h (lit "人教版") (by simp [explicitPatterns])
    have h4 := h (lit "粤教版") (by simp [explicitPatterns])
    simp [parse_version, explicitPatterns, List.find?, h1, h2, h3, h4, h5] <;> decide
  · intro h h6
    have h1 := h (lit "北师大版") (by simp [explicitPatterns])
    have h2 := h (lit "北师大") (by simp [explicitPatterns])
    have h3 := h (lit "人教版") (by simp [explicitPatterns])
    have h4 := h (lit "粤教版") (by simp [explicitPatterns])
    have h5 := h (lit "人音版") (by simp [explicitPatterns])
    simp [parse_version, explicitPatterns, List.find?, h1, h2, h3, h4, h5, h6] <;> decide
  · intro h h7
    have h1 := h (lit "北师大版") (by simp [explicitPatterns])
    have h2 := h (lit "北师大") (by simp [explicitPatterns])
    have h3 := h (lit "人教版") (by simp [explicitPatterns])
    have h4 := h (lit "粤教版") (by simp [explicitPatterns])
    have h5 := h (lit "人音版") (by simp [explicitPatterns])
    have h6 := h (lit "人美版") (by simp [explicitPatterns])
    simp [parse_version, explicitPatterns, List.find?, h1, h2, h3, h4, h5, h6, h7] <;> decide
  · intro h h8
    have h1 := h (lit "北师大版") (by simp [explicitPatterns])
    have h2 := h (lit "北师大") (by simp [explicitPatterns])
    have h3 := h (lit "人教版") (by simp [explicitPatterns])
    have h4 := h (lit "粤教版") (by simp [explicitPatterns])
    have h5 := h (lit "人音版") (by simp [explicitPatterns])
    have h6 := h (lit "人美版") (by simp [explicitPatterns])
    have h7 := h (lit "语文S版") (by simp [explicitPatterns])
    simp [parse_version, explicitPatterns, List.find?, h1, h2, h3, h4, h5, h6, h7, h8] <;> decide
  · intro h cap hcap
    have hf := find_hasSub_eq_none _ _ h
    simp [parse_version, hf, hcap]
  · intro h hpei h1
    have hf := find_hasSub_eq_none _ _ h
    simp only [parse_version, hf, hpei]
    simp [pubList, List.find?, h1]
  · intro h hpei hp h2
    have hf := find_hasSub_eq_none _ _ h
    have h1 := hp (lit "湖南美术") (by simp [pubList])
    simp only [parse_version, hf, hpei]
    simp [pubList, List.find?, h1, h2]
  · intro h hpei hp h3
    have hf := find_hasSub_eq_none _ _ h
    have h1 := hp (lit "湖南美术") (by simp [pubList])
    have h2 := hp (lit "江苏教育") (by simp [pubList])
    simp only [parse_version, hf, hpei]
    simp [pubList, List.find?, h1, h2, h3]
  · intro h hpei hp h4
    have hf := find_hasSub_eq_none _ _ h
    have h1 := hp (lit "湖南美术") (by simp [pubList])
    have h2 := hp (lit "江苏教育") (by simp [pubList])
    have h3 := hp (lit "粤教科技") (by simp [pubList])
    simp only [parse_version, hf, hpei]
    simp [pubList, List.find?, h1, h2, h3, h4]
  · intro h hpei hp h5
    have hf := find_hasSub_eq_none _ _ h
    have h1 := hp (lit "湖南美术") (by simp [pubList])
    have h2 := hp (lit "江苏教育") (by simp [pubList])
    have h3 := hp (lit "粤教科技") (by simp [pubList])
    have h4 := hp (lit "粤教育") (by simp [pubList])
    simp only [parse_version, hf, hpei]
    simp [pubList, List.find?, h1, h2, h3, h4, h5]
  · intro h hpei hp
    have hf := find_hasSub_eq_none _ _ h
    have hf2 := find_hasSub_eq_none _ _ hp
    simp [parse_version, hf, hpei, hf2]

/-- C6 witness: a title containing 人教版 but neither 北师大版 nor a bare
北师大 resolves to 人教版 through the third explicit pattern. -/
theorem c6_witness :
    parse_version (some (lit "人教版语文三年级")) (some (lit "X")) =
      some (lit "人教版") :=
  ((c6_parse_version_precedence (some (lit "X"))).2
    (lit "人教版语文三年级")).2.2.1 (by decide) (by decide)

/-- Helper: the greedy capture run swallows a whole excluded-free block
and stops exactly at the closing parenthesis that follows it. -/
theorem peiRun_append_close (mid post : Str)
    (h : ∀ c ∈ mid, peiExcl c = false) :
    peiRun (mid ++ ')' :: post) = mid := by
  induction mid with
  | nil => simp [peiRun, peiExcl]
  | cons c rest ih =>
    have hc := h c (by simp)
    simp only [List.cons_append, peiRun, hc]
    simp only [Bool.false_eq_true, if_false, List.append_eq]
    rw [ih fun d hd => h d (by simp [hd])]

/-- Helper: the greedy capture run swallows an entire excluded-free
string. -/
theorem peiRun_all (mid : Str) (h : ∀ c ∈ mid, peiExcl c = false) :
    peiRun mid = mid := by
  induction mid with
  | nil => rfl
  | cons c rest ih =>
    have hc := h c (by simp)
    simp only [peiRun, hc]
    simp only [Bool.false_eq_true, if_false]
    rw [ih fun d hd => h d (by simp [hd])]

/-- C3 (counterexample): for the title `配人教(新版` (no explicit token),
the captured version is `人教(新版` — the ASCII opening parenthesis does
not stop the capture, contradicting "stops at the first parenthesis of
either kind", which would give `人教`. -/
theorem c3_counterexample :
    parse_version (some (lit "配人教(新版")) none = some (lit "人教(新版") ∧
    parse_version (some (lit "配人教(新版")) none ≠ some (lit "人教") := by
  constructor
  · decide
  · decide

/-- Helper: a whitespace character is never one of the capture
terminators of the 配 pattern. -/
theorem isPyWs_not_excl (c : Char) (h : isPyWs c = true) : peiExcl c = false := by
  simp only [isPyWs, Bool.or_eq_true, beq_iff_eq] at h
  rcases h with ((((((h | h) | h) | h) | h) | h) | h) <;> subst h <;> decide

/-- Helper: dropWhile skips over a fully-whitespace prefix. -/
theorem dropWhile_ws_append (wsg X : Str) (h : ∀ c ∈ wsg, isPyWs c = true) :
    (wsg ++ X).dropWhile isPyWs = X.dropWhile isPyWs := by
  induction wsg with
  | nil => rfl
  | cons c rest ih =>
    have hc := h c (by simp)
    simp only [List.cons_append, List.dropWhile_cons, hc, if_true]
    exact ih fun d hd => h d (by simp [hd])

/-- Helper: stripping ignores a fully-whitespace prefix. -/
theorem stripWs_ws_append (wsg X : Str) (h : ∀ c ∈ wsg, isPyWs c = true) :
    stripWs (wsg ++ X) = stripWs X := by
  simp only [stripWs]
  rw [dropWhile_ws_append _ _ h]

/-- Helper: the greedy capture run passes through a fully-whitespace
prefix (whitespace is not excluded from the capture class). -/
theorem peiRun_ws_append (wsg X : Str) (h : ∀ c ∈ wsg, isPyWs c = true) :
    peiRun (wsg ++ X) = wsg ++ peiRun X := by
  induction wsg with
  | nil => rfl
  | cons c rest ih =>
    have hc := isPyWs_not_excl c (h c (by simp))
    simp only [List.cons_append, peiRun, hc]
    simp only [Bool.false_eq_true, if_false, List.append_eq]
    rw [ih fun d hd => h d (by simp [hd])]

/-- Helper: dropping up to the whitespace-prefix length splits off a
fully-whitespace segment. -/
theorem wsLen_drop_split (l : Str) :
    ∀ k, k ≤ wsLen l →
    ∃ wsg, (∀ c ∈ wsg, isPyWs c = true) ∧ l.drop k = wsg ++ l.drop (wsLen l) := by
  induction l with
  | nil =>
    intro k hk
    simp only [wsLen] at hk
    have hz : k = 0 := by omega
    subst hz
    exact ⟨[], by simp, by simp [wsLen]⟩
  | cons c rest ih =>
    intro k hk
    by_cases hc : isPyWs c = true
    · have hw : wsLen (c :: rest) = wsLen rest + 1 := by simp [wsLen, hc]
      cases k with
      | zero =>
        obtain ⟨wsg, hwsg, hsplit⟩ := ih 0 (by omega)
        simp only [List.drop_zero] at hsplit
        refine ⟨c :: wsg, ?_, ?_⟩
        · intro d hd
          rcases List.mem_cons.mp hd with rfl | hd
          · exact hc
          · exact hwsg d hd
        · rw [hw]
          simp only [List.drop_zero, List.drop_succ_cons, List.cons_append]
          rw [← hsplit]
      | succ k2 =>
        obtain ⟨wsg, hwsg, hsplit⟩ := ih k2 (by omega)
        refine ⟨wsg, hwsg, ?_⟩
        rw [hw]
        simp only [List.drop_succ_cons]
        exact hsplit
    · have hw : wsLen (c :: rest) = 0 := by simp [wsLen, hc]
      have hz : k = 0 := by omega
      subst hz
      exact ⟨[], by simp, by rw [hw]; simp⟩

/-- Helper: the regex backtracking of `\s*([^\)（）]+)` — starting from
any offset inside the whitespace prefix, the attempt succeeds as long as
the text's head is not a terminator, and the trimmed capture always
equals the trimmed greedy run over the whole text. -/
theorem peiTryFrom_strip (m0 : Char) (rest : Str) (hm0 : peiExcl m0 = false) :
    ∀ k, k ≤ wsLen (m0 :: rest) →
    ∃ cap, peiTryFrom k (m0 :: rest) = some cap ∧
      stripWs cap = stripWs (peiRun (m0 :: rest)) := by
  intro k
  induction k with
  | zero =>
    intro _
    refine ⟨peiRun (m0 :: rest), ?_, rfl⟩
    simp [peiTryFrom, hm0]
  | succ k ih =>
    intro hk
    obtain ⟨wsg, hwsg, hsplit⟩ := wsLen_drop_split (m0 :: rest) (k + 1) hk
    obtain ⟨wsg0, hwsg0, hsplit0⟩ := wsLen_drop_split (m0 :: rest) 0 (by omega)
    simp only [List.drop_zero] at hsplit0
    have hrun0 : stripWs (peiRun (m0 :: rest)) =
        stripWs (peiRun ((m0 :: rest).drop (wsLen (m0 :: rest)))) := by
      conv_lhs => rw [hsplit0]
      rw [peiRun_ws_append _ _ hwsg0, stripWs_ws_append _ _ hwsg0]
    cases hdrop : (m0 :: rest).drop (k + 1) with
    | nil =>
      obtain ⟨cap, hcap, hstrip⟩ := ih (by omega)
      refine ⟨cap, ?_, hstrip⟩
      simp only [peiTryFrom]
      rw [hdrop]
      exact hcap
    | cons d ds =>
      cases hd : peiExcl d with
      | true =>
        obtain ⟨cap, hcap, hstrip⟩ := ih (by omega)
        refine ⟨cap, ?_, hstrip⟩
        simp only [peiTryFrom]
        rw [hdrop]
        simp only [hd, if_true]
        exact hcap
      | false =>
        refine ⟨peiRun ((m0 :: rest).drop (k + 1)), ?_, ?_⟩
        · simp only [peiTryFrom]
          rw [hdrop]
          simp only [hd, Bool.false_eq_true, if_false]
        · rw [hsplit, peiRun_ws_append _ _ hwsg, stripWs_ws_append _ _ hwsg, hrun0]

/-- Helper: a 配 whose following character is not a terminator matches,
and the trimmed capture equals the trimmed greedy run over the tail. -/
theorem peiMatch_strip (m0 : Char) (rest : Str) (hm0 : peiExcl m0 = false) :
    ∃ cap, peiMatch (m0 :: rest) = some cap ∧
      stripWs cap = stripWs (peiRun (m0 :: rest)) :=
  peiTryFrom_strip m0 rest hm0 (wsLen (m0 :: rest)) (Nat.le_refl _)

/-- Helper: the 配 search skips any prefix free of 配. -/
theorem findPei_skip (pre l : Str) (h : '配' ∉ pre) :
    findPei (pre ++ l) = findPei l := by
  induction pre with
  | nil => rfl
  | cons c rest ih =>
    have hc : (c == '配') = false := by
      simp only [beq_eq_false_iff_ne, ne_eq]
      intro hcc
      exact h (by simp [hcc])
    simp only [List.cons_append, findPei, hc]
    simp only [Bool.false_eq_true, if_false]
    exact ih fun hm => h (by simp [hm])

/-- Helper: on a text whose leftmost 配 is followed by a non-terminator
character, the 配 search captures, and the trimmed capture is the trimmed
greedy run over the tail after that 配. -/
theorem findPei_capture (pre : Str) (m0 : Char) (rest : Str)
    (hpre : '配' ∉ pre) (hm0 : peiExcl m0 = false) :
    ∃ cap, findPei (pre ++ '配' :: m0 :: rest) = some cap ∧
      stripWs cap = stripWs (peiRun (m0 :: rest)) := by
  obtain ⟨cap, hcap, hstrip⟩ := peiMatch_strip m0 rest hm0
  refine ⟨cap, ?_, hstrip⟩
  rw [findPei_skip _ _ hpre]
  simp only [findPei, beq_self_eq_true, if_true, hcap]

/-- C3 (amended): when no explicit token matches and the substituted
title contains a 配 marker (the leftmost one, here: the first 配, with a
capturable tail), the version is the text captured after 配 — running up
to the next ASCII closing parenthesis or the end of the string — trimmed,
and normalized to 北师大版 whenever it contains 北师大.  An ASCII opening
parenthesis does not terminate the capture, and full-width parentheses
cannot occur after substitution.  The first conjunct covers every such
title (including whitespace right after the 配, which the regex's
backtracking resolves so that only the trimmed capture matters); the
second and third specialize to a capture block delimited by `)` and by
the end of the string. -/
theorem c3_pei_capture :
    (∀ (t pre : Str) (m0 : Char) (rest : Str) (fb : Option Str),
      substBrackets t = pre ++ '配' :: m0 :: rest →
      '配' ∉ pre →
      peiExcl m0 = false →
      (∀ p ∈ explicitPatterns, hasSub p (substBrackets t) = false) →
      parse_version (some t) fb =
        some (if hasSub (lit "北师大") (stripWs (peiRun (m0 :: rest)))
              then lit "北师大版" else stripWs (peiRun (m0 :: rest)))) ∧
    (∀ (t pre mid post : Str) (fb : Option Str),
      substBrackets t = pre ++ '配' :: (mid ++ ')' :: post) →
      '配' ∉ pre →
      mid ≠ [] →
      (∀ c ∈ mid, peiExcl c = false) →
      (∀ p ∈ explicitPatterns, hasSub p (substBrackets t) = false) →
      parse_version (some t) fb =
        some (if hasSub (lit "北师大") (stripWs mid) then lit "北师大版"
              else stripWs mid)) ∧
    (∀ (t pre mid : Str) (fb : Option Str),
      substBrackets t = pre ++ '配' :: mid →
      '配' ∉ pre →
      mid ≠ [] →
      (∀ c ∈ mid, peiExcl c = false) →
      (∀ p ∈ explicitPatterns, hasSub p (substBrackets t) = false) →
      parse_version (some t) fb =
        some (if hasSub (lit "北师大") (stripWs mid) then lit "北师大版"
              else stripWs mid)) := by
  have main : ∀ (t pre : Str) (m0 : Char) (rest : Str) (fb : Option Str),
      substBrackets t = pre ++ '配' :: m0 :: rest →
      '配' ∉ pre →
      peiExcl m0 = false →
      (∀ p ∈ explicitPatterns, hasSub p (substBrackets t) = false) →
      parse_version (some t) fb =
        some (if hasSub (lit "北师大") (stripWs (peiRun (m0 :: rest)))
              then lit "北师大版" else stripWs (peiRun (m0 :: rest))) := by
    intro t pre m0 rest fb hsub hpre hm0 hexp
    have hf := find_hasSub_eq_none _ _ hexp
    obtain ⟨cap, hcap, hstrip⟩ := findPei_capture pre m0 rest hpre hm0
    have hpei : findPei (substBrackets t) = some cap := by
      rw [hsub]
      exact hcap
    simp [parse_version, hf, hpei, hstrip]
  refine ⟨main, ?_, ?_⟩
  · intro t pre mid post fb hsub hpre hne hexcl hexp
    obtain ⟨m0, mid2, rfl⟩ : ∃ m0 mid2, mid = m0 :: mid2 := by
      cases mid with
      | nil => exact absurd rfl hne
      | cons a b => exact ⟨a, b, rfl⟩
    have hm0 : peiExcl m0 = false := hexcl m0 (by simp)
    have hmain := main t pre m0 (mid2 ++ ')' :: post) fb (by simpa using hsub)
      hpre hm0 hexp
    rw [hmain]
    have hrun : peiRun (m0 :: (mid2 ++ ')' :: post)) = m0 :: mid2 := by
      rw [show (m0 :: (mid2 ++ ')' :: post)) = ((m0 :: mid2) ++ ')' :: post) by simp]
      exact peiRun_append_close _ _ hexcl
    rw [hrun]
  · intro t pre mid fb hsub hpre hne hexcl hexp
    obtain ⟨m0, mid2, rfl⟩ : ∃ m0 mid2, mid = m0 :: mid2 := by
      cases mid with
      | nil => exact absurd rfl hne
      | cons a b => exact ⟨a, b, rfl⟩
    have hm0 : peiExcl m0 = false := hexcl m0 (by simp)
    have hmain := main t pre m0 mid2 fb hsub hpre hm0 hexp
    rw [hmain, peiRun_all _ hexcl]

/-- C3 witness: a mid-string 配 at a concrete input — in `英语阅读配译林`
the capture after the 配 runs to the end of the string, giving 译林. -/
theorem c3_witness :
    parse_version (some (lit "英语阅读配译林")) none = some (lit "译林") :=
  (c3_pei_capture.2.2 (lit "英语阅读配译林") (lit "英语阅读") (lit "译林") none
    (by decide) (by decide) (by decide) (by decide) (by decide)).trans (by decide)

/-- Helper: the value grid of a direct (unconditional) cell assignment. -/
theorem assignCell_val (ws : Sheet) (r c : Nat) (v : XVal) (r2 c2 : Nat) :
    (assignCell ws r c v).val r2 c2 = if r2 = r ∧ c2 = c then v else ws.val r2 c2 := rfl

